import Mathlib

/-!
Verification of the image-stack import and ordering pipeline of the ImageP
repository (module `imagep/images/importtools.py`), as a shallow embedding.

Filesystem paths are modelled by `PyPath` (directory part, stem, extension).
The filesystem itself, the numpy text decoder (`np.loadtxt`), the grayscale
image reader (`skimage.io.imread(..., as_gray=True)`) and the path shortener
are environment parameters (`Env`), since they read the outside world; the
decoded 2D numeric array is an abstract type `α`.  Python exceptions are
modelled by `Except String` carrying the exception message; `np.loadtxt`
decode failures (the `ValueError`s caught by the retry loop) are the `.error`
values of `Env.loadtxt`.  Python `sorted(xs, key=k)` is a stable sort by the
computed keys; since a stable sort by a total preorder has a unique result,
it is modelled by Mathlib insertion sort over key-decorated pairs.
-/

namespace ImageP

/-- Model of a filesystem path: directory part, filename stem, and extension
(`Path.suffix`, including the leading dot). -/
structure PyPath where
  dir : String
  stem : String
  suffix : String
deriving DecidableEq

/-- String rendering of a path, as Python `f"{path}"` would produce. -/
def PyPath.str (p : PyPath) : String :=
  p.dir ++ p.stem ++ p.suffix

/-- Python `list[i]` indexing for `i : int`: supports negative indices from
the end, and fails (IndexError) when out of range. -/
def pyGet (xs : List String) (i : Int) : Option String :=
  if 0 ≤ i then xs[i.toNat]?
  else if 0 ≤ i + xs.length then xs[(i + xs.length).toNat]?
  else none

/-- Python `needle in hay` on strings: contiguous substring containment. -/
def pyInStr (needle hay : String) : Bool :=
  decide (needle.toList <:+: hay.toList)

/-- Python `s.startswith(pre)`. -/
def pyStartsWith (s pre : String) : Bool :=
  decide (pre.toList <+: s.toList)

/-- Split a character list at every character satisfying the predicate,
keeping empty pieces, exactly as `re.split` over single-character
alternatives does; `acc` holds the reversed characters of the piece under
construction. -/
def splitCharsAux (p : Char → Bool) : List Char → List Char → List String
  | [], acc => [acc.reverse.asString]
  | c :: cs, acc =>
    if p c then acc.reverse.asString :: splitCharsAux p cs []
    else splitCharsAux p cs (c :: acc)

/-- Source `_split_fname`: split the filename stem on the characters space
and underscore (`re.split(" |_", Path(path).stem)`), keeping empty pieces. -/
def _split_fname (p : PyPath) : List String :=
  splitCharsAux (fun c => c == ' ' || c == '_') p.stem.toList []

/-- Source `_get_sortkey`: extract the token of the stem at
`imgkey_position`.  The position is `none` when Python `None` was passed
(indexing a list by `None` fails), and token extraction fails when the
position is out of range for the stem (IndexError). -/
def _get_sortkey (imgkey_position : Option Int) (p : PyPath) : Option String :=
  imgkey_position.bind fun i => pyGet (_split_fname p) i

/-- Run a fallible function over a list, failing as soon as one element
fails; models a Python comprehension whose body may raise. -/
def mapOption {β γ : Type} (f : β → Option γ) : List β → Option (List γ)
  | [] => some []
  | x :: xs =>
    match f x, mapOption f xs with
    | some y, some ys => some (y :: ys)
    | _, _ => none

/-- Run an exception-raising function over a list, failing on the first
raised exception; models a Python list comprehension. -/
def mapExcept {β γ ε : Type} (f : β → Except ε γ) : List β → Except ε (List γ)
  | [] => .ok []
  | x :: xs =>
    match f x, mapExcept f xs with
    | .ok y, .ok ys => .ok (y :: ys)
    | .error e, _ => .error e
    | _, .error e => .error e

/-- Comparison of key-decorated paths by their string key, the comparison
Python `sorted(paths, key=...)` performs: `String.le` is lexicographic by
code point over the character lists, as in CPython. -/
def keyLE (x y : String × PyPath) : Prop :=
  String.le x.1 y.1

instance : DecidableRel keyLE := fun x y =>
  String.decLE x.1 y.1

instance : IsTotal (String × PyPath) keyLE :=
  ⟨fun x y => by
    by_cases h : @LT.lt String String.instLT y.1 x.1
    · exact Or.inr fun h2 => String.lt_irrefl _ (String.lt_trans h h2)
    · exact Or.inl h⟩

instance : IsTrans (String × PyPath) keyLE :=
  ⟨fun x y z hxy hyz => by
    intro hzx
    by_cases h : @LT.lt String String.instLT y.1 z.1
    · exact hxy (String.lt_trans h hzx)
    · exact hxy (String.lt_antisymm h hyz ▸ hzx)⟩

/-- Decorate each path with its sort key, failing if any key extraction
fails (Python computes the key of every element before sorting). -/
def decorate (key : PyPath → Option String) (l : List PyPath) :
    Option (List (String × PyPath)) :=
  mapOption (fun p => (key p).map fun k => (k, p)) l

/-- Python `sorted(l, key=key)`: a stable sort by the computed string keys.
Stable sorting by a total preorder has a unique result, so insertion sort
over the decorated list models CPython Timsort faithfully. -/
def pySorted (key : PyPath → Option String) (l : List PyPath) :
    Option (List PyPath) :=
  match decorate key l with
  | none => none
  | some keyed => some ((List.insertionSort keyLE keyed).map Prod.snd)

/-- Source `_order_imgpaths`: optionally sort the paths by the stem token at
`imgname_position`, then optionally reverse.  `none` is a raised IndexError
from key extraction during sorting. -/
def _order_imgpaths (imgpaths : List PyPath) (sort : Bool)
    (imgname_position : Option Int) (invertorder : Bool) :
    Option (List PyPath) :=
  match (if sort then pySorted (_get_sortkey imgname_position) imgpaths
         else some imgpaths) with
  | none => none
  | some ps => some (if invertorder then ps.reverse else ps)

/-- Source `_imgnames_from_imgpaths`: the stem token at `imgname_position`,
for every path. -/
def _imgnames_from_imgpaths (imgpaths : List PyPath)
    (imgname_position : Option Int) : Option (List String) :=
  mapOption (_get_sortkey imgname_position) imgpaths

/-- The two registered decoders of `_function_from_format`. -/
inductive ImportFunc where
  | txt
  | img
deriving DecidableEq

/-- Source `_function_from_format`: dispatch on the file extension.  The
image branch is Python `fname_extension in (".tif")`, and `(".tif")` is a
string, not a tuple, so the test is substring containment in ".tif". -/
def _function_from_format (fname_extension : String) : Except String ImportFunc :=
  if fname_extension = ".txt" then .ok .txt
  else if pyInStr fname_extension ".tif" then .ok .img
  else .error ("fname_extension \x27" ++ fname_extension ++ "\x27 not supported.")

/-- The retry loop of `_txtfile_to_array`: attempt the given skip counts in
order, return the first success, and raise naming the path when the list is
exhausted.  Only decode failures (`ValueError`, the `.error` results of
`loadtxt`) are caught. -/
def _txt_attempts {α : Type} (loadtxt : PyPath → Nat → Except String α)
    (path : PyPath) : List Nat → Except String α
  | [] => .error ("Could not import \x27" ++ path.str ++ "\x27.")
  | i :: rest =>
    match loadtxt path i with
    | .ok a => .ok a
    | .error _ => _txt_attempts loadtxt path rest

/-- Source `_txtfile_to_array`: with an explicit `skiprows` the decoder is
called once and any failure propagates; without it, skip counts
`range(4) = [0, 1, 2, 3]` are attempted in order. -/
def _txtfile_to_array {α : Type} (loadtxt : PyPath → Nat → Except String α)
    (path : PyPath) (skiprows : Option Nat) : Except String α :=
  match skiprows with
  | some s => loadtxt path s
  | none => _txt_attempts loadtxt path (List.range 4)

/-- Source `mdarray` metadata wrapper, restricted to the provenance fields
this pipeline sets: the numeric payload, the display name, and the
shortened source folder. -/
structure Mdarray (α : Type) where
  array : α
  name : String
  folder : String
deriving DecidableEq

/-- Environment of a folder import: the filesystem glob (folder and pattern
to the matched directory listing), the text decoder `np.loadtxt` (path and
skiprows; `.error` is a decode `ValueError`), the grayscale image reader,
and the path shortener `ut.shortenpath` (repository code outside the core
source, kept abstract). -/
structure Env (α : Type) where
  glob : String → String → List PyPath
  loadtxt : PyPath → Nat → Except String α
  imread : PyPath → α
  shortenpath : String → String

/-- Keyword arguments of `arrays_from_folder` other than the name position. -/
structure ImportKws where
  fname_pattern : String
  fname_extension : String
  sort : Bool
  invertorder : Bool
  skiprows : Option Nat
deriving DecidableEq

/-- Extension normalization of `arrays_from_folder`: prepend a dot unless
the extension already starts with one (the empty extension becomes "."). -/
def normalize_extension (fname_extension : String) : String :=
  if pyStartsWith fname_extension "." then fname_extension
  else "." ++ fname_extension

/-- Glob pattern used by `arrays_from_folder`: the filename pattern when
nonempty, else star plus the normalized extension. -/
def pattern_of (kws : ImportKws) : String :=
  if kws.fname_pattern = "" then "*" ++ normalize_extension kws.fname_extension
  else kws.fname_pattern

/-- Decode one file with the dispatched decoder. -/
def decode_with {α : Type} (env : Env α) (f : ImportFunc) (skiprows : Option Nat)
    (p : PyPath) : Except String α :=
  match f with
  | .txt => _txtfile_to_array env.loadtxt p skiprows
  | .img => .ok (env.imread p)

/-- Display names of `arrays_from_folder`: stem tokens at the given position
when one is given, else the full stems. -/
def imgnames_of (ordered : List PyPath) (imgname_position : Option Int) :
    Option (List String) :=
  match imgname_position with
  | none => some (ordered.map PyPath.stem)
  | some _ => _imgnames_from_imgpaths ordered imgname_position

/-- Source `arrays_from_folder`: check that a pattern or an extension was
given, normalize the extension, glob, order the paths, dispatch the decoder
on the (normalized) extension, decode every ordered file, derive the display
names, and wrap each array with its provenance.  The final source line
prints `_imgnames[0]`, which raises IndexError on an empty match list. -/
def arrays_from_folder {α : Type} (env : Env α) (folder : String)
    (imgname_position : Option Int) (kws : ImportKws) :
    Except String (List String × List (Mdarray α)) :=
  if kws.fname_extension = "" ∧ kws.fname_pattern = "" then
    .error "Either arguments must be given: \x27fname_pattern\x27 or \x27fname_extension\x27."
  else
    match _order_imgpaths (env.glob folder (pattern_of kws)) kws.sort
        imgname_position kws.invertorder with
    | none => .error "list index out of range"
    | some ordered =>
      match _function_from_format (normalize_extension kws.fname_extension) with
      | .error e => .error e
      | .ok f =>
        match mapExcept (decode_with env f kws.skiprows) ordered with
        | .error e => .error e
        | .ok imgs =>
          match imgnames_of ordered imgname_position with
          | none => .error "list index out of range"
          | some names =>
            if names.isEmpty then .error "list index out of range"
            else
              .ok (names, (imgs.zip names).map fun x =>
                { array := x.1, name := x.2, folder := env.shortenpath folder })

/-- Modelled from the spec: `ut.check_samelength_or_number` (module
`imagep/_utils/utils.py`, repository code not under the provided sources).
Per the spec, multi-folder assembly fails with a configuration error when a
supplied per-folder position list has a length different from the folder
count, and otherwise the list is returned unchanged. -/
def check_samelength_or_number (val : List Int) (target_n : Nat) :
    Except String (List Int) :=
  if val.length = target_n then .ok val
  else .error "imgkey_positions must have the same length as folders"

/-- Python dict assignment `d[k] = v` on an association list: overwrite in
place when the key exists, else append. -/
def dictSet {β : Type} (d : List (String × β)) (k : String) (v : β) :
    List (String × β) :=
  if d.any fun kv => kv.1 == k then
    d.map fun kv => if kv.1 == k then (k, v) else kv
  else d ++ [(k, v)]

/-- Modelled from the spec: class `ListOfArrays` (module
`imagep/images/list_of_arrays.py`, repository code not under the provided
sources).  Per the spec the assembled Stack degrades to a list-of-arrays
representation; it is modelled as holding the flattened arrays in order. -/
structure ListOfArrays (α : Type) where
  arrays : List (Mdarray α)
deriving DecidableEq

/-- Name-position argument of `arrays_from_folderlist`: one shared integer
position, or a per-folder list. -/
inductive IntOrList where
  | int (i : Int)
  | list (l : List Int)

/-- The folder loop of `arrays_from_folderlist`: import each folder with its
position, store names and arrays in two dicts keyed by the shortened folder
path; any per-folder failure propagates and aborts the loop. -/
def folder_loop {α : Type} (env : Env α) (kws : ImportKws) :
    List (String × Int) → List (String × List (Mdarray α)) →
    List (String × List String) →
    Except String (List (String × List (Mdarray α)) × List (String × List String))
  | [], imgsDict, namesDict => .ok (imgsDict, namesDict)
  | (folder, pos) :: rest, imgsDict, namesDict =>
    match arrays_from_folder env folder (some pos) kws with
    | .error e => .error e
    | .ok r =>
      folder_loop env kws rest
        (dictSet imgsDict (env.shortenpath folder) r.2)
        (dictSet namesDict (env.shortenpath folder) r.1)

/-- Source `arrays_from_folderlist`: expand a single integer position to one
per folder, check the per-folder list length, import every folder in order,
and return the per-folder name dict together with the flattened arrays of
the image dict values. -/
def arrays_from_folderlist {α : Type} (env : Env α) (folders : List String)
    (imgname_position : IntOrList) (kws : ImportKws) :
    Except String (List (String × List String) × ListOfArrays α) :=
  match check_samelength_or_number
      (match imgname_position with
       | .int i => List.replicate folders.length i
       | .list l => l)
      folders.length with
  | .error e => .error e
  | .ok ps =>
    match folder_loop env kws (folders.zip ps) [] [] with
    | .error e => .error e
    | .ok r => .ok (r.2, ⟨(r.1.map Prod.snd).flatten⟩)

/-! Helper lemmas about the embedding. -/

theorem mapOption_none_of_mem {β γ : Type} (f : β → Option γ) {l : List β} {x : β}
    (hx : x ∈ l) (hfx : f x = none) : mapOption f l = none := by
  induction l with
  | nil => cases hx
  | cons a l ih =>
    rcases List.mem_cons.mp hx with rfl | h
    · cases hrec : mapOption f l <;> simp [mapOption, hfx, hrec]
    · cases hfa : f a <;> simp [mapOption, hfa, ih h]

theorem mapExcept_ok {β γ ε : Type} (f : β → Except ε γ) (g : β → γ)
    (hf : ∀ b, f b = .ok (g b)) : ∀ l, mapExcept f l = .ok (l.map g) := by
  intro l
  induction l with
  | nil => rfl
  | cons x xs ih => simp [mapExcept, hf x, ih]

theorem decorate_spec (key : PyPath → Option String) :
    ∀ (l : List PyPath) (keyed : List (String × PyPath)),
      decorate key l = some keyed →
      keyed.map Prod.snd = l ∧ ∀ x ∈ keyed, key x.2 = some x.1 := by
  intro l
  induction l with
  | nil =>
    intro keyed h
    obtain rfl : ([] : List (String × PyPath)) = keyed := Option.some.inj h
    exact ⟨rfl, by simp⟩
  | cons p l ih =>
    intro keyed h
    unfold decorate mapOption at h
    cases hk : key p with
    | none => rw [hk] at h; simp at h
    | some k =>
      rw [hk] at h
      cases hrec : mapOption (fun q => (key q).map fun s => (s, q)) l with
      | none => rw [hrec] at h; simp at h
      | some ys =>
        rw [hrec] at h
        simp only [Option.map_some'] at h
        obtain rfl : (k, p) :: ys = keyed := Option.some.inj h
        obtain ⟨hmap, hkeys⟩ := ih ys hrec
        refine ⟨by simp [hmap], ?_⟩
        intro x hx
        rcases List.mem_cons.mp hx with rfl | hx2
        · exact hk
        · exact hkeys x hx2

theorem order_sort_iff (l : List PyPath) (posO : Option Int) (out : List PyPath) :
    _order_imgpaths l true posO false = some out ↔
      pySorted (_get_sortkey posO) l = some out := by
  unfold _order_imgpaths
  cases pySorted (_get_sortkey posO) l <;> simp

/-! Claim theorems. -/

/-- C1: the delimited-text decoder, given an explicit header-row-skip count,
makes exactly one decode attempt with that count and propagates its result
(including failure) unchanged; with no explicit count it attempts skip
counts 0, 1, 2, 3 in order and returns the first success; when all four
attempts fail it raises an error naming the path. -/
theorem txt_retry_spec {α : Type} (loadtxt : PyPath → Nat → Except String α)
    (path : PyPath) :
    (∀ skiprows : Nat,
       _txtfile_to_array loadtxt path (some skiprows) = loadtxt path skiprows) ∧
    (∀ (i : Nat) (a : α), i < 4 → (∀ j, j < i → ∃ e, loadtxt path j = .error e) →
       loadtxt path i = .ok a → _txtfile_to_array loadtxt path none = .ok a) ∧
    ((∀ i, i < 4 → ∃ e, loadtxt path i = .error e) →
       _txtfile_to_array loadtxt path none =
         .error ("Could not import \x27" ++ path.str ++ "\x27.")) := by
  have hr : List.range 4 = [0, 1, 2, 3] := rfl
  refine ⟨fun _ => rfl, ?_, ?_⟩
  · intro i a hi hprev hok
    unfold _txtfile_to_array
    rw [hr]
    interval_cases i
    · simp [_txt_attempts, hok]
    · obtain ⟨e0, h0⟩ := hprev 0 (by omega)
      simp [_txt_attempts, h0, hok]
    · obtain ⟨e0, h0⟩ := hprev 0 (by omega)
      obtain ⟨e1, h1⟩ := hprev 1 (by omega)
      simp [_txt_attempts, h0, h1, hok]
    · obtain ⟨e0, h0⟩ := hprev 0 (by omega)
      obtain ⟨e1, h1⟩ := hprev 1 (by omega)
      obtain ⟨e2, h2⟩ := hprev 2 (by omega)
      simp [_txt_attempts, h0, h1, h2, hok]
  · intro hall
    obtain ⟨e0, h0⟩ := hall 0 (by omega)
    obtain ⟨e1, h1⟩ := hall 1 (by omega)
    obtain ⟨e2, h2⟩ := hall 2 (by omega)
    obtain ⟨e3, h3⟩ := hall 3 (by omega)
    unfold _txtfile_to_array
    rw [hr]
    simp [_txt_attempts, h0, h1, h2, h3]

def txtW_path : PyPath := ⟨"data/", "Image3 6", ".txt"⟩

def txtW_load : PyPath → Nat → Except String Nat :=
  fun _ i => if i = 2 then .ok 7 else .error "could not convert string to float"

def txtW_loadbad : PyPath → Nat → Except String Nat :=
  fun _ _ => .error "could not convert string to float"

/-- Witness for C1: a file decodable only with skip count 2 imports as its
skip-2 decode; an undecodable file raises the error naming the path. -/
theorem txt_retry_spec_witness :
    _txtfile_to_array txtW_load txtW_path (some 5) = txtW_load txtW_path 5 ∧
    _txtfile_to_array txtW_load txtW_path none = .ok 7 ∧
    _txtfile_to_array txtW_loadbad txtW_path none =
      .error ("Could not import \x27" ++ txtW_path.str ++ "\x27.") := by
  refine ⟨(txt_retry_spec txtW_load txtW_path).1 5,
    (txt_retry_spec txtW_load txtW_path).2.1 2 7 (by omega) ?_ rfl,
    (txt_retry_spec txtW_loadbad txtW_path).2.2 ?_⟩
  · intro j hj
    exact ⟨"could not convert string to float", by interval_cases j <;> rfl⟩
  · intro i _
    exact ⟨"could not convert string to float", rfl⟩

/-- C3: for every path list and every token position, ordering with sort and
invert enabled is exactly the reverse of ordering with sort enabled and
invert disabled. -/
theorem order_invert_reverse (imgpaths : List PyPath)
    (imgname_position : Option Int) :
    _order_imgpaths imgpaths true imgname_position true =
      (_order_imgpaths imgpaths true imgname_position false).map List.reverse := by
  unfold _order_imgpaths
  cases pySorted (_get_sortkey imgname_position) imgpaths <;> simp

/-- C7: with sort disabled (and no inversion), the ordering step returns the
input path list unchanged, preserving directory-listing order. -/
theorem order_nosort_id (imgpaths : List PyPath)
    (imgname_position : Option Int) :
    _order_imgpaths imgpaths false imgname_position false = some imgpaths := by
  unfold _order_imgpaths
  simp

/-- C8: when both the filename pattern and the filename extension are empty,
the single-folder import fails with the configuration error regardless of
the environment, so before any file is matched or read. -/
theorem folder_config_error {α : Type} (env : Env α) (folder : String)
    (imgname_position : Option Int) (sort invertorder : Bool)
    (skiprows : Option Nat) :
    arrays_from_folder env folder imgname_position
      { fname_pattern := "", fname_extension := "", sort := sort,
        invertorder := invertorder, skiprows := skiprows } =
      .error "Either arguments must be given: \x27fname_pattern\x27 or \x27fname_extension\x27." :=
  rfl

/-- C4 counterexample: the extension ".t" is neither ".txt" nor ".tif", yet
the dispatcher selects the image decoder instead of raising an error,
because the image branch tests substring membership in ".tif". -/
theorem format_dispatch_cex :
    ".t" ≠ ".txt" ∧ ".t" ≠ ".tif" ∧
      _function_from_format ".t" = .ok ImportFunc.img :=
  ⟨by decide, by decide, rfl⟩

/-- C4 amended: dispatch is purely on the extension; ".txt" selects the text
decoder, any other extension that is a contiguous substring of ".tif"
selects the image decoder, and every remaining extension raises an error
naming the extension. -/
theorem format_dispatch_amended :
    _function_from_format ".txt" = .ok ImportFunc.txt ∧
    (∀ ext : String, ext ≠ ".txt" → pyInStr ext ".tif" = true →
       _function_from_format ext = .ok ImportFunc.img) ∧
    (∀ ext : String, ext ≠ ".txt" → pyInStr ext ".tif" = false →
       _function_from_format ext =
         .error ("fname_extension \x27" ++ ext ++ "\x27 not supported.")) := by
  refine ⟨rfl, ?_, ?_⟩ <;> intro ext hne hin <;> unfold _function_from_format <;>
    rw [if_neg hne] <;> simp [hin]

/-- Witness for C4 amended: ".tif" selects the image decoder and ".png"
raises the error naming the extension. -/
theorem format_dispatch_amended_witness :
    _function_from_format ".tif" = .ok ImportFunc.img ∧
    _function_from_format ".png" =
      .error ("fname_extension \x27" ++ ".png" ++ "\x27 not supported.") :=
  ⟨format_dispatch_amended.2.1 ".tif" (by decide) (by decide),
   format_dispatch_amended.2.2 ".png" (by decide) (by decide)⟩

/-- C9: multi-folder assembly treats a single integer position as that
position duplicated once per folder, and fails with the configuration error
before consulting the environment when a supplied per-folder list has the
wrong length, so no files are read. -/
theorem folderlist_position_check {α : Type} (env : Env α)
    (folders : List String) (kws : ImportKws) :
    (∀ i : Int, arrays_from_folderlist env folders (.int i) kws =
       arrays_from_folderlist env folders
         (.list (List.replicate folders.length i)) kws) ∧
    (∀ l : List Int, l.length ≠ folders.length →
       arrays_from_folderlist env folders (.list l) kws =
         .error "imgkey_positions must have the same length as folders") := by
  refine ⟨fun i => rfl, fun l hl => ?_⟩
  have hchk : check_samelength_or_number l folders.length =
      .error "imgkey_positions must have the same length as folders" := by
    unfold check_samelength_or_number
    rw [if_neg hl]
  unfold arrays_from_folderlist
  rw [hchk]

def flW_env : Env Nat :=
  { glob := fun _ _ => [], loadtxt := fun _ _ => .ok 0, imread := fun _ => 0,
    shortenpath := fun s => s }

def flW_kws : ImportKws := ⟨"", ".tif", true, true, none⟩

/-- Witness for C9: three folders with a length-2 position list fail with
the configuration error; a single integer equals the duplicated list. -/
theorem folderlist_position_check_witness :
    arrays_from_folderlist flW_env ["a", "b", "c"] (.int 0) flW_kws =
      arrays_from_folderlist flW_env ["a", "b", "c"] (.list [0, 0, 0]) flW_kws ∧
    arrays_from_folderlist flW_env ["a", "b", "c"] (.list [0, 1]) flW_kws =
      .error "imgkey_positions must have the same length as folders" :=
  ⟨(folderlist_position_check flW_env ["a", "b", "c"] flW_kws).1 0,
   (folderlist_position_check flW_env ["a", "b", "c"] flW_kws).2 [0, 1] (by decide)⟩

def tpW_env : Env Nat :=
  { glob := fun _ _ => [⟨"f/", "image3", ".txt"⟩],
    loadtxt := fun _ _ => .ok 0, imread := fun _ => 0, shortenpath := fun s => s }

def tpW_kws : ImportKws := ⟨"", ".txt", true, true, none⟩

/-- C5 counterexample: with token position 5 and a single matched file of
stem "image3", the import aborts, but with the bare message of a Python
IndexError from list indexing, which does not name the offending filename
(neither the stem nor the full filename occurs in the message). -/
theorem token_position_cex :
    arrays_from_folder tpW_env "f" (some 5) tpW_kws =
      .error "list index out of range" ∧
    pyInStr "image3" "list index out of range" = false ∧
    pyInStr "image3.txt" "list index out of range" = false :=
  ⟨rfl, by decide, by decide⟩

/-- C5 amended: when the configured sort token position is out of range for
some matched filename, the whole import aborts with an IndexError carrying
the fixed message "list index out of range" — no partial ordering is
produced, but the error does not name the offending filename. -/
theorem token_position_aborts {α : Type} (env : Env α) (folder : String)
    (pos : Int) (kws : ImportKws) (p : PyPath)
    (hsort : kws.sort = true)
    (hcfg : ¬(kws.fname_extension = "" ∧ kws.fname_pattern = ""))
    (hmem : p ∈ env.glob folder (pattern_of kws))
    (hkey : pyGet (_split_fname p) pos = none) :
    arrays_from_folder env folder (some pos) kws =
      .error "list index out of range" := by
  have hdec : decorate (_get_sortkey (some pos))
      (env.glob folder (pattern_of kws)) = none := by
    refine mapOption_none_of_mem _ hmem ?_
    simp [_get_sortkey, hkey]
  have hord : _order_imgpaths (env.glob folder (pattern_of kws)) kws.sort
      (some pos) kws.invertorder = none := by
    rw [hsort]
    unfold _order_imgpaths pySorted
    rw [hdec]
    rfl
  unfold arrays_from_folder
  rw [if_neg hcfg, hord]

/-- Witness for C5 amended: the concrete out-of-range instance aborts with
the fixed IndexError message. -/
theorem token_position_aborts_witness :
    arrays_from_folder tpW_env "f" (some 5) tpW_kws =
      .error "list index out of range" :=
  token_position_aborts tpW_env "f" 5 tpW_kws ⟨"f/", "image3", ".txt"⟩
    rfl (by decide) (by decide) (by decide)

/-- C10: with a nonempty pattern and an empty extension, the empty extension
is normalized to "." and the dispatcher selects the grayscale image decoder
for it, so every matched file is decoded with the image reader regardless of
its actual extension and no unsupported-format error can arise. -/
theorem pattern_only_image_decoder {α : Type} (env : Env α) (folder : String)
    (fname_pattern : String) (hpatt : fname_pattern ≠ "")
    (imgname_position : Option Int) (sort invertorder : Bool)
    (skiprows : Option Nat) :
    normalize_extension "" = "." ∧
    _function_from_format (normalize_extension "") = .ok ImportFunc.img ∧
    arrays_from_folder env folder imgname_position
      ⟨fname_pattern, "", sort, invertorder, skiprows⟩ =
      match _order_imgpaths (env.glob folder fname_pattern) sort
          imgname_position invertorder with
      | none => .error "list index out of range"
      | some ordered =>
        match imgnames_of ordered imgname_position with
        | none => .error "list index out of range"
        | some names =>
          if names.isEmpty then .error "list index out of range"
          else
            .ok (names, (((ordered.map env.imread).zip names).map fun x =>
              { array := x.1, name := x.2, folder := env.shortenpath folder })) := by
  refine ⟨rfl, rfl, ?_⟩
  have hcfg : ¬((⟨fname_pattern, "", sort, invertorder, skiprows⟩ :
      ImportKws).fname_extension = "" ∧
      (⟨fname_pattern, "", sort, invertorder, skiprows⟩ :
      ImportKws).fname_pattern = "") := by
    simp [hpatt]
  have hpat : pattern_of ⟨fname_pattern, "", sort, invertorder, skiprows⟩ =
      fname_pattern := by
    unfold pattern_of
    simp [hpatt]
  unfold arrays_from_folder
  rw [if_neg hcfg, hpat]
  cases horder : _order_imgpaths (env.glob folder fname_pattern) sort
      imgname_position invertorder with
  | none => rfl
  | some ordered =>
    have hdecode : mapExcept
        (decode_with env ImportFunc.img skiprows) ordered =
        .ok (ordered.map env.imread) :=
      mapExcept_ok _ _ (fun _ => rfl) ordered
    show (match mapExcept (decode_with env ImportFunc.img skiprows) ordered with
      | .error e => (.error e : Except String (List String × List (Mdarray α)))
      | .ok imgs =>
        match imgnames_of ordered imgname_position with
        | none => .error "list index out of range"
        | some names =>
          if names.isEmpty then .error "list index out of range"
          else
            .ok (names, (imgs.zip names).map fun (x : α × String) =>
              { array := x.1, name := x.2, folder := env.shortenpath folder })) = _
    rw [hdecode]

def pW_env : Env Nat :=
  { glob := fun _ _ => [⟨"F/", "scan 1", ".czi"⟩, ⟨"F/", "scan 2", ".czi"⟩],
    loadtxt := fun _ _ => .error "ValueError", imread := fun p => p.stem.length,
    shortenpath := fun s => s }

/-- Witness for C10: a pattern-only import over files with extension ".czi"
succeeds via the grayscale image decoder. -/
theorem pattern_only_image_decoder_witness :
    normalize_extension "" = "." ∧
    _function_from_format (normalize_extension "") = .ok ImportFunc.img ∧
    arrays_from_folder pW_env "F" (some 1) ⟨"*.czi", "", true, false, none⟩ =
      .ok (["1", "2"],
        [{ array := 6, name := "1", folder := "F" },
         { array := 6, name := "2", folder := "F" }]) :=
  pattern_only_image_decoder pW_env "F" "*.czi" (by decide) (some 1) true false none

/-- C2: ordering with sort enabled (and no inversion) returns a permutation
of the input that is ascending by the extracted stem token under the
lexicographic string comparison `String.le`, and the sort is stable: two
paths with equal extracted tokens keep the relative order they had in the
input directory listing. -/
theorem order_sorted_stable (imgpaths : List PyPath) (pos : Int)
    (out : List PyPath)
    (h : _order_imgpaths imgpaths true (some pos) false = some out) :
    List.Perm out imgpaths ∧
    List.Pairwise (fun a b => ∀ ka kb, _get_sortkey (some pos) a = some ka →
      _get_sortkey (some pos) b = some kb → String.le ka kb) out ∧
    (∀ a b : PyPath, List.Sublist [a, b] imgpaths →
      _get_sortkey (some pos) a = _get_sortkey (some pos) b →
      List.Sublist [a, b] out) := by
  rw [order_sort_iff] at h
  unfold pySorted at h
  cases hdec : decorate (_get_sortkey (some pos)) imgpaths with
  | none => rw [hdec] at h; cases h
  | some keyed =>
    rw [hdec] at h
    obtain rfl : (List.insertionSort keyLE keyed).map Prod.snd = out :=
      Option.some.inj h
    obtain ⟨hsnd, hkeys⟩ := decorate_spec _ _ _ hdec
    refine ⟨?_, ?_, ?_⟩
    · have hperm := (List.perm_insertionSort keyLE keyed).map Prod.snd
      rw [hsnd] at hperm
      exact hperm
    · have hs := List.sorted_insertionSort keyLE keyed
      rw [List.pairwise_map]
      refine hs.imp_of_mem ?_
      intro x y hx hy hxy ka kb hka hkb
      have hx2 := hkeys x ((List.mem_insertionSort keyLE).mp hx)
      have hy2 := hkeys y ((List.mem_insertionSort keyLE).mp hy)
      rw [hx2] at hka
      rw [hy2] at hkb
      obtain rfl : x.1 = ka := Option.some.inj hka
      obtain rfl : y.1 = kb := Option.some.inj hkb
      exact hxy
    · intro a b hab hkeq
      rw [← hsnd] at hab
      obtain ⟨c, hcsub, hcmap⟩ := List.sublist_map_iff.mp hab
      cases c with
      | nil => simp at hcmap
      | cons x c1 =>
        cases c1 with
        | nil => simp at hcmap
        | cons y c2 =>
          cases c2 with
          | cons z c3 => simp at hcmap
          | nil =>
            simp only [List.map_cons, List.map_nil, List.cons.injEq, and_true]
              at hcmap
            obtain ⟨hxa, hyb⟩ := hcmap
            subst hxa
            subst hyb
            have hxk := hkeys x (hcsub.subset (by simp))
            have hyk := hkeys y (hcsub.subset (by simp))
            have hkxy : keyLE x y := by
              rw [hxk, hyk] at hkeq
              obtain heq : x.1 = y.1 := Option.some.inj hkeq
              unfold keyLE
              rw [heq]
              exact fun hlt => String.lt_irrefl _ hlt
            have hsub2 :=
              (List.pair_sublist_insertionSort hkxy hcsub).map Prod.snd
            rw [List.map_cons, List.map_cons, List.map_nil] at hsub2
            exact hsub2

def owA1 : PyPath := ⟨"f/", "a 1", ".tif"⟩

def owA2 : PyPath := ⟨"f/", "a 2", ".tif"⟩

def owB : PyPath := ⟨"f/", "b 1", ".tif"⟩

/-- Witness for C2: sorting three concrete paths by token 0 (keys "b", "a",
"a") yields a permutation, and the tied keys "a" keep their input order. -/
theorem order_sorted_stable_witness :
    List.Perm [owA1, owA2, owB] [owB, owA1, owA2] ∧
    List.Sublist [owA1, owA2] [owA1, owA2, owB] := by
  have h := order_sorted_stable [owB, owA1, owA2] 0 [owA1, owA2, owB] rfl
  exact ⟨h.1, h.2.2 owA1 owA2 (by decide) rfl⟩

theorem dictSet_fresh {β : Type} (d : List (String × β)) (k : String) (v : β)
    (h : ∀ kv ∈ d, kv.1 ≠ k) : dictSet d k v = d ++ [(k, v)] := by
  have hc : ¬(d.any fun kv => kv.1 == k) = true := by
    rw [List.any_eq_true]
    rintro ⟨kv, hmem, heq⟩
    exact h kv hmem (by simpa using heq)
  unfold dictSet
  rw [if_neg hc]

theorem zip_map_fst {β : Type} (g : String → β) :
    ∀ (l : List String) (ps : List Int), l.length ≤ ps.length →
      (l.zip ps).map (fun x => g x.1) = l.map g := by
  intro l
  induction l with
  | nil => intro ps _; simp
  | cons a l ih =>
    intro ps h
    cases ps with
    | nil => simp at h
    | cons p ps2 =>
      simp only [List.zip_cons_cons, List.map_cons, List.cons.injEq, true_and]
      exact ih ps2 (by simpa using h)

theorem folder_loop_spec {α : Type} (env : Env α) (kws : ImportKws)
    (res : String → List String × List (Mdarray α)) :
    ∀ (pairs : List (String × Int)) (accI : List (String × List (Mdarray α)))
      (accN : List (String × List String)),
      (∀ x ∈ pairs, arrays_from_folder env x.1 (some x.2) kws = .ok (res x.1)) →
      (pairs.map fun x => env.shortenpath x.1).Nodup →
      (∀ x ∈ pairs, ∀ kv ∈ accI, kv.1 ≠ env.shortenpath x.1) →
      (∀ x ∈ pairs, ∀ kv ∈ accN, kv.1 ≠ env.shortenpath x.1) →
      folder_loop env kws pairs accI accN =
        .ok (accI ++ pairs.map fun x => (env.shortenpath x.1, (res x.1).2),
             accN ++ pairs.map fun x => (env.shortenpath x.1, (res x.1).1)) := by
  intro pairs
  induction pairs with
  | nil =>
    intro accI accN _ _ _ _
    simp [folder_loop]
  | cons fp rest ih =>
    intro accI accN hok hnd hfI hfN
    obtain ⟨folder, pos⟩ := fp
    have hok1 : arrays_from_folder env folder (some pos) kws =
        .ok (res folder) := hok (folder, pos) (List.mem_cons_self _ _)
    have hfI1 : ∀ kv ∈ accI, kv.1 ≠ env.shortenpath folder :=
      hfI (folder, pos) (List.mem_cons_self _ _)
    have hfN1 : ∀ kv ∈ accN, kv.1 ≠ env.shortenpath folder :=
      hfN (folder, pos) (List.mem_cons_self _ _)
    obtain ⟨hhd, htl⟩ := List.nodup_cons.mp hnd
    unfold folder_loop
    rw [hok1]
    show folder_loop env kws rest
        (dictSet accI (env.shortenpath folder) (res folder).2)
        (dictSet accN (env.shortenpath folder) (res folder).1) = _
    rw [dictSet_fresh _ _ _ hfI1, dictSet_fresh _ _ _ hfN1]
    rw [ih (accI ++ [(env.shortenpath folder, (res folder).2)])
        (accN ++ [(env.shortenpath folder, (res folder).1)])
        (fun x hx => hok x (List.mem_cons_of_mem _ hx))
        htl
        ?_ ?_]
    · simp
    · intro x hx kv hkv
      rcases List.mem_append.mp hkv with hkv1 | hkv2
      · exact hfI x (List.mem_cons_of_mem _ hx) kv hkv1
      · obtain rfl : kv = (env.shortenpath folder, (res folder).2) := by
          simpa using hkv2
        intro hcontra
        refine hhd ?_
        have hmm : env.shortenpath x.1 ∈
            rest.map fun y => env.shortenpath y.1 :=
          List.mem_map_of_mem _ hx
        rw [← hcontra] at hmm
        exact hmm
    · intro x hx kv hkv
      rcases List.mem_append.mp hkv with hkv1 | hkv2
      · exact hfN x (List.mem_cons_of_mem _ hx) kv hkv1
      · obtain rfl : kv = (env.shortenpath folder, (res folder).1) := by
          simpa using hkv2
        intro hcontra
        refine hhd ?_
        have hmm : env.shortenpath x.1 ∈
            rest.map fun y => env.shortenpath y.1 :=
          List.mem_map_of_mem _ hx
        rw [← hcontra] at hmm
        exact hmm

/-- C6: when the shortened paths of the input folders are pairwise distinct
and every per-folder import succeeds, multi-folder assembly returns a name
mapping with exactly one key per input folder, in input-folder order, each
key mapped to that folder's ordered name list, and a flattened stack that
concatenates the per-folder stacks in input-folder order. -/
theorem folderlist_assembly {α : Type} (env : Env α) (folders : List String)
    (ps : List Int) (kws : ImportKws)
    (res : String → List String × List (Mdarray α))
    (hlen : ps.length = folders.length)
    (hnd : (folders.map env.shortenpath).Nodup)
    (hok : ∀ x ∈ folders.zip ps,
      arrays_from_folder env x.1 (some x.2) kws = .ok (res x.1)) :
    arrays_from_folderlist env folders (.list ps) kws =
      .ok (folders.map fun f => (env.shortenpath f, (res f).1),
           ⟨(folders.map fun f => (res f).2).flatten⟩) := by
  have hle : folders.length ≤ ps.length := le_of_eq hlen.symm
  have hchk : check_samelength_or_number ps folders.length = .ok ps := by
    unfold check_samelength_or_number
    rw [if_pos hlen]
  have hndz : ((folders.zip ps).map fun x => env.shortenpath x.1).Nodup := by
    rw [zip_map_fst _ _ _ hle]
    exact hnd
  have hloop := folder_loop_spec env kws res (folders.zip ps) [] []
    hok hndz (by simp) (by simp)
  have he1 : ((folders.zip ps).map fun x =>
      (env.shortenpath x.1, (res x.1).1)) =
      folders.map fun f => (env.shortenpath f, (res f).1) :=
    zip_map_fst (fun f => (env.shortenpath f, (res f).1)) folders ps hle
  have he2 : (((folders.zip ps).map fun x =>
      (env.shortenpath x.1, (res x.1).2)).map Prod.snd) =
      folders.map fun f => (res f).2 := by
    rw [List.map_map]
    exact zip_map_fst (fun f => (res f).2) folders ps hle
  rw [List.nil_append, List.nil_append, he1] at hloop
  unfold arrays_from_folderlist
  rw [hchk]
  show (match folder_loop env kws (folders.zip ps) [] [] with
    | .error e =>
      (.error e : Except String (List (String × List String) × ListOfArrays α))
    | .ok r => .ok (r.2, ⟨(r.1.map Prod.snd).flatten⟩)) = _
  rw [hloop]
  show (Except.ok
      ((folders.map fun f => (env.shortenpath f, (res f).1)),
       ⟨((((folders.zip ps).map fun x =>
           (env.shortenpath x.1, (res x.1).2)).map Prod.snd)).flatten⟩) :
      Except String (List (String × List String) × ListOfArrays α)) = _
  rw [he2]

def mfW_env : Env Nat :=
  { glob := fun f _ =>
      if f = "A" then
        [⟨"A/", "s 2", ".tif"⟩, ⟨"A/", "s 1", ".tif"⟩, ⟨"A/", "s 3", ".tif"⟩]
      else [⟨"B/", "t 2", ".tif"⟩, ⟨"B/", "t 1", ".tif"⟩],
    loadtxt := fun _ _ => .error "ValueError", imread := fun p => p.stem.length,
    shortenpath := fun s => s }

def mfW_kws : ImportKws := ⟨"", ".tif", true, false, none⟩

def mfW_res : String → List String × List (Mdarray Nat) := fun f =>
  if f = "A" then
    (["1", "2", "3"],
     [{ array := 3, name := "1", folder := "A" },
      { array := 3, name := "2", folder := "A" },
      { array := 3, name := "3", folder := "A" }])
  else
    (["1", "2"],
     [{ array := 3, name := "1", folder := "B" },
      { array := 3, name := "2", folder := "B" }])

/-- Witness for C6: two folders with 3 and 2 matching files give a name
mapping with exactly 2 keys holding name lists of lengths 3 and 2, and a
flattened stack of length 5 concatenating the folders in input order. -/
theorem folderlist_assembly_witness :
    arrays_from_folderlist mfW_env ["A", "B"] (.list [1, 1]) mfW_kws =
      .ok ([("A", ["1", "2", "3"]), ("B", ["1", "2"])],
        ⟨[{ array := 3, name := "1", folder := "A" },
          { array := 3, name := "2", folder := "A" },
          { array := 3, name := "3", folder := "A" },
          { array := 3, name := "1", folder := "B" },
          { array := 3, name := "2", folder := "B" }]⟩) := by
  have h := folderlist_assembly mfW_env ["A", "B"] [1, 1] mfW_kws mfW_res
    rfl (by decide) ?_
  · exact h
  · intro x hx
    have hx2 : x ∈ [("A", (1 : Int)), ("B", (1 : Int))] := hx
    rw [List.mem_cons, List.mem_singleton] at hx2
    rcases hx2 with rfl | rfl <;> rfl

end ImageP
